import Mathlib

/-!
Shallow embedding of `src/lazyLoader.js` (class `LazyLoader`).

The JS class keeps a `Map` from generated ids to records
`{observer, element, beforeUnobserve, afterUnobserve}`; each `observe`
call creates one `IntersectionObserver` whose callback closure runs
`callback(entry); observer.unobserve(entry.target)` on intersecting
entries.  We embed the class state together with the platform state it
talks to: which handler closure belongs to each observer, and which
`(observer, element)` pairs the platform is currently tracking.  Every
call into caller-supplied code (the visibility callback, the
`beforeUnobserve` / `afterUnobserve` hooks) and every instruction to the
platform (`observe`, `unobserve`, `disconnect`) is appended to a trace.

Caller-supplied functions are represented by `Nat` labels; a hook that
was omitted at `observe` time (JS `options.beforeUnobserve || (() => {})`)
is stored as `none`, matching the defaulted no-op closure.  Elements and
ids are `Nat`; the id generator (`#generateId`, a random string in JS) is
embedded as a freshness counter, as the spec notes the generation
algorithm is an implementation detail.
-/

/-- A platform intersection report: `entry.isIntersecting` and `entry.target`. -/
structure Entry where
  isIntersecting : Bool
  target : Nat
deriving DecidableEq

/-- One observable step: a call into caller code or an instruction to the
platform watcher.  Each constructor records the observer handle involved. -/
inductive Event where
  | observeEl : Nat → Nat → Event
  | cb : Nat → Nat → Entry → Event
  | unobserveEl : Nat → Nat → Event
  | beforeU : Option Nat → Nat → Nat → Event
  | afterU : Option Nat → Nat → Nat → Event
  | disconnectObs : Nat → Event
deriving DecidableEq

/-- The observer handle an event mentions. -/
def evObs : Event → Nat
  | Event.observeEl o _ => o
  | Event.cb o _ _ => o
  | Event.unobserveEl o _ => o
  | Event.beforeU _ _ o => o
  | Event.afterU _ _ o => o
  | Event.disconnectObs o => o

/-- The record stored in `this.observers`:
`{observer, element, beforeUnobserve, afterUnobserve}`. -/
structure Rec where
  observer : Nat
  element : Nat
  beforeU : Option Nat
  afterU : Option Nat
deriving DecidableEq

/-- The fields read off the constructor's `options` argument. -/
structure CtorOptions where
  threshold : Option Rat
  rootMargin : Option String
deriving DecidableEq

/-- The optional hooks read off `observe`'s `options` argument. -/
structure ObserveOptions where
  beforeUnobserve : Option Nat
  afterUnobserve : Option Nat
deriving DecidableEq

/-- The `LazyLoader` instance state: `this.threshold`, `this.rootMargin`,
`this.observers` (a `Map`, embedded as an insertion-ordered association
list with unique keys). `none` stands for JS `undefined`. -/
structure LazyLoader where
  threshold : Option Rat
  rootMargin : Option String
  observers : List (Nat × Rec)
deriving DecidableEq

/-- `constructor(options = {threshold: 0.1, rootMargin: '0px'})`:
the default object is used only when the whole argument is absent;
then `this.threshold = options.threshold`, `this.rootMargin =
options.rootMargin`, `this.observers = new Map()`. -/
def LazyLoader.create (options : Option CtorOptions) : LazyLoader :=
  let opts := options.getD { threshold := some ((1 : Rat)/10), rootMargin := some "0px" }
  { threshold := opts.threshold, rootMargin := opts.rootMargin, observers := [] }

/-- The loader together with the platform state it interacts with:
`handlers` maps each created observer to its callback closure's label,
`tracking` holds the `(observer, element)` pairs the platform is
currently tracking, `trace` the observable history, and `fresh` the
id-generator state. -/
structure World where
  loader : LazyLoader
  handlers : List (Nat × Nat)
  tracking : List (Nat × Nat)
  trace : List Event
  fresh : Nat
deriving DecidableEq

/-- A world containing a freshly constructed loader. -/
def initWorld (l : LazyLoader) : World :=
  { loader := l, handlers := [], tracking := [], trace := [], fresh := 0 }

/-- `Map.get` on an association list (first matching key). -/
def lookupKey {β : Type} : List (Nat × β) → Nat → Option β
  | [], _ => none
  | q :: rest, k => if q.1 = k then some q.2 else lookupKey rest k

/-- `Map.delete` on an association list (removes the first matching key). -/
def eraseKey {β : Type} : List (Nat × β) → Nat → List (Nat × β)
  | [], _ => []
  | q :: rest, k => if q.1 = k then rest else q :: eraseKey rest k

/-- `observer.unobserve(el)`: the platform stops tracking `el` for this
observer; the instruction is recorded in the trace. -/
def obsUnobserve (obsId el : Nat) (w : World) : World :=
  { w with tracking := w.tracking.filter (fun p => decide (p ≠ (obsId, el))),
           trace := w.trace ++ [Event.unobserveEl obsId el] }

/-- `observer.disconnect()`: the platform stops tracking everything for
this observer. -/
def obsDisconnect (obsId : Nat) (w : World) : World :=
  { w with tracking := w.tracking.filter (fun p => decide (p.1 ≠ obsId)),
           trace := w.trace ++ [Event.disconnectObs obsId] }

/-- Invoking a record's `beforeUnobserve(element, observer)`. -/
def invokeBeforeU (r : Rec) (w : World) : World :=
  { w with trace := w.trace ++ [Event.beforeU r.beforeU r.element r.observer] }

/-- Invoking a record's `afterUnobserve(element, observer)`. -/
def invokeAfterU (r : Rec) (w : World) : World :=
  { w with trace := w.trace ++ [Event.afterU r.afterU r.element r.observer] }

/-- `this.observers.delete(id)`. -/
def deleteRec (id : Nat) (w : World) : World :=
  { w with loader := { w.loader with observers := eraseKey w.loader.observers id } }

/-- The body of the `IntersectionObserver` callback closure created in
`observe`, on one entry: `if (entry.isIntersecting) { callback(entry);
observer.unobserve(entry.target); }`. -/
def handleEntry (cbl obsId : Nat) (w : World) (e : Entry) : World :=
  if e.isIntersecting then
    obsUnobserve obsId e.target
      { w with trace := w.trace ++ [Event.cb obsId cbl e] }
  else w

/-- The closure's `entries.forEach(...)` loop. -/
def handleEntries (cbl obsId : Nat) (entries : List Entry) (w : World) : World :=
  entries.foldl (handleEntry cbl obsId) w

/-- Platform delivery of one intersection report to one observer.  The
platform only calls a handler that exists, and only reports on a target
that observer is still tracking; any other delivery does nothing. -/
def deliver (w : World) (obsId : Nat) (e : Entry) : World :=
  match lookupKey w.handlers obsId with
  | none => w
  | some cbl =>
      if (obsId, e.target) ∈ w.tracking then handleEntries cbl obsId [e] w else w

/-- A sequence of platform deliveries. -/
def deliverList : World → List (Nat × Entry) → World
  | w, [] => w
  | w, it :: rest => deliverList (deliver w it.1 it.2) rest

/-- `observe(callback, element, options)`: generate an id, default the
hooks, create the observer (registering its handler closure), call
`observer.observe(element)`, store the record, and return the id the
stop closure `() => this.#unobserve(id)` captures. -/
def observe (w : World) (callback element : Nat) (options : ObserveOptions) : World × Nat :=
  let id := w.fresh
  let r : Rec := { observer := id, element := element,
                   beforeU := options.beforeUnobserve, afterU := options.afterUnobserve }
  let w1 := { w with fresh := id + 1, handlers := w.handlers ++ [(id, callback)] }
  let w2 := { w1 with tracking := w1.tracking ++ [(id, element)],
                      trace := w1.trace ++ [Event.observeEl id element] }
  let w3 := { w2 with loader := { w2.loader with observers := w2.loader.observers ++ [(id, r)] } }
  (w3, id)

/-- `#unobserve(id)`, which the returned stop function runs: no-op when
the id is absent; otherwise `beforeUnobserve(element, observer)`, then
`observer.unobserve(element)`, then `this.observers.delete(id)`, then
`afterUnobserve(element, observer)`. -/
def unobserveId (w : World) (id : Nat) : World :=
  match lookupKey w.loader.observers id with
  | none => w
  | some r => invokeAfterU r (deleteRec id (obsUnobserve r.observer r.element (invokeBeforeU r w)))

/-- One iteration of `disconnect()`'s `forEach`: `beforeUnobserve(element,
observer); observer.disconnect(); afterUnobserve(element, observer)`. -/
def disconnectStep (w : World) (pr : Nat × Rec) : World :=
  invokeAfterU pr.2 (obsDisconnect pr.2.observer (invokeBeforeU pr.2 w))

/-- The `forEach` loop of `disconnect()` over a list of records. -/
def disconnectRun (l : List (Nat × Rec)) (w : World) : World :=
  l.foldl disconnectStep w

/-- `disconnect()`: run the loop over the current records, then
`this.observers.clear()`. -/
def disconnect (w : World) : World :=
  let w1 := disconnectRun w.loader.observers w
  { w1 with loader := { w1.loader with observers := [] } }

/-- How many times some visibility callback was invoked through the
handler closure of observer `o`. -/
def countCb (o : Nat) (t : List Event) : Nat :=
  t.countP (fun ev => match ev with
    | Event.cb o2 _ _ => decide (o2 = o)
    | _ => false)

/-- How many `beforeUnobserve` invocations a trace holds. -/
def countBefore (t : List Event) : Nat :=
  t.countP (fun ev => match ev with
    | Event.beforeU _ _ _ => true
    | _ => false)

/-- How many `afterUnobserve` invocations a trace holds. -/
def countAfter (t : List Event) : Nat :=
  t.countP (fun ev => match ev with
    | Event.afterU _ _ _ => true
    | _ => false)

/-- How many `observer.disconnect()` instructions a trace holds. -/
def countDisc (t : List Event) : Nat :=
  t.countP (fun ev => match ev with
    | Event.disconnectObs _ => true
    | _ => false)

/-- Every record's watcher handle is still tracking that record's target. -/
def recordsActive (w : World) : Bool :=
  w.loader.observers.all (fun p => decide ((p.2.observer, p.2.element) ∈ w.tracking))

/-- A delivery-list item that reports observer `o`'s target `el`
intersecting. -/
def qualifies (o el : Nat) (it : Nat × Entry) : Bool :=
  decide (it.1 = o) && it.2.isIntersecting && decide (it.2.target = el)

/-- The event sequence `disconnect()` emits for a list of records. -/
def disconnectEvents : List (Nat × Rec) → List Event
  | [] => []
  | pr :: rest =>
      Event.beforeU pr.2.beforeU pr.2.element pr.2.observer ::
      Event.disconnectObs pr.2.observer ::
      Event.afterU pr.2.afterU pr.2.element pr.2.observer ::
      disconnectEvents rest

/-- A world with one freshly observed registration (no hooks). -/
def sampleW1 : World :=
  (observe (initWorld (LazyLoader.create none)) 1 5 { beforeUnobserve := none, afterUnobserve := none }).1

/-- `sampleW1` with a second registration carrying both hooks. -/
def sampleW2 : World :=
  (observe sampleW1 2 6 { beforeUnobserve := some 7, afterUnobserve := some 8 }).1

theorem lookupKey_mem {β : Type} {l : List (Nat × β)} {k : Nat} {v : β}
    (h : lookupKey l k = some v) : (k, v) ∈ l := by
  induction l with
  | nil => simp [lookupKey] at h
  | cons q rest ih =>
      by_cases hq : q.1 = k
      · simp [lookupKey, hq] at h
        have hq2 : (k, v) = q := by
          cases q
          simp_all
        rw [List.mem_cons]
        exact Or.inl hq2
      · simp [lookupKey, hq] at h
        right
        exact ih h

theorem lookupKey_append_right {β : Type} (l : List (Nat × β)) (k : Nat) (v : β)
    (h : ∀ q ∈ l, q.1 ≠ k) : lookupKey (l ++ [(k, v)]) k = some v := by
  induction l with
  | nil => simp [lookupKey]
  | cons q rest ih =>
      have hq : q.1 ≠ k := h q (by simp)
      simp only [List.cons_append, lookupKey, hq, if_false]
      exact ih (fun p hp => h p (by simp [hp]))

theorem mem_of_mem_eraseKey {β : Type} {l : List (Nat × β)} {k : Nat} {p : Nat × β}
    (h : p ∈ eraseKey l k) : p ∈ l := by
  induction l with
  | nil => simp [eraseKey] at h
  | cons q rest ih =>
      by_cases hq : q.1 = k
      · simp only [eraseKey, hq, if_true] at h
        exact List.mem_cons_of_mem q h
      · simp only [eraseKey, hq, if_false, List.mem_cons] at h
        rcases h with h | h
        · exact h ▸ List.mem_cons_self q rest
        · exact List.mem_cons_of_mem q (ih h)

theorem mem_eraseKey_ne {β : Type} {l : List (Nat × β)} {k : Nat} {p : Nat × β}
    (hnd : (l.map Prod.fst).Nodup) (h : p ∈ eraseKey l k) : p.1 ≠ k := by
  induction l with
  | nil => simp [eraseKey] at h
  | cons q rest ih =>
      simp only [List.map_cons, List.nodup_cons] at hnd
      by_cases hq : q.1 = k
      · simp only [eraseKey, hq, if_true] at h
        intro hpk
        exact hnd.1 (hq ▸ hpk ▸ List.mem_map_of_mem Prod.fst h)
      · simp only [eraseKey, hq, if_false, List.mem_cons] at h
        rcases h with h | h
        · exact h ▸ hq
        · exact ih hnd.2 h

theorem lookupKey_eraseKey_self {β : Type} {l : List (Nat × β)} {k : Nat}
    (hnd : (l.map Prod.fst).Nodup) : lookupKey (eraseKey l k) k = none := by
  cases h : lookupKey (eraseKey l k) k with
  | none => rfl
  | some v =>
      exact absurd rfl (mem_eraseKey_ne hnd (lookupKey_mem h))

theorem lookupKey_eraseKey_other {β : Type} (l : List (Nat × β)) (k k' : Nat)
    (hne : k' ≠ k) : lookupKey (eraseKey l k) k' = lookupKey l k' := by
  induction l with
  | nil => simp [eraseKey]
  | cons q rest ih =>
      by_cases hq : q.1 = k
      · have hk : k ≠ k' := fun h => hne h.symm
        simp [eraseKey, lookupKey, hq, hk]
      · by_cases hq' : q.1 = k'
        · simp [eraseKey, lookupKey, hq, hq', hne]
        · simp [eraseKey, lookupKey, hq, hq', ih]

theorem nodup_map_inj {α β : Type} (f : α → β) {l : List α}
    (h : (l.map f).Nodup) :
    ∀ a ∈ l, ∀ b ∈ l, f a = f b → a = b := by
  induction l with
  | nil => simp
  | cons x xs ih =>
      simp only [List.map_cons, List.nodup_cons] at h
      intro a ha b hb hfab
      rcases List.mem_cons.mp ha with ha | ha <;> rcases List.mem_cons.mp hb with hb | hb
      · exact ha.trans hb.symm
      · exfalso
        apply h.1
        have hx : f x = f b := by rw [← ha]; exact hfab
        rw [hx]
        exact List.mem_map_of_mem f hb
      · exfalso
        apply h.1
        have hx : f x = f a := by rw [← hb]; exact hfab.symm
        rw [hx]
        exact List.mem_map_of_mem f ha
      · exact ih h.2 a ha b hb hfab

theorem unobserveId_absent {w : World} {id : Nat}
    (h : lookupKey w.loader.observers id = none) : unobserveId w id = w := by
  simp [unobserveId, h]

theorem unobserveId_present {w : World} {id : Nat} {r : Rec}
    (h : lookupKey w.loader.observers id = some r) :
    (unobserveId w id).loader.observers = eraseKey w.loader.observers id
  ∧ (unobserveId w id).trace
      = w.trace ++ [Event.beforeU r.beforeU r.element r.observer,
                    Event.unobserveEl r.observer r.element,
                    Event.afterU r.afterU r.element r.observer]
  ∧ (unobserveId w id).tracking
      = w.tracking.filter (fun p => decide (p ≠ (r.observer, r.element)))
  ∧ (unobserveId w id).handlers = w.handlers
  ∧ (unobserveId w id).loader.threshold = w.loader.threshold
  ∧ (unobserveId w id).loader.rootMargin = w.loader.rootMargin := by
  refine ⟨?_, ?_, ?_, ?_, ?_, ?_⟩ <;>
    simp [unobserveId, h, invokeAfterU, deleteRec, obsUnobserve, invokeBeforeU]

theorem countBefore_append (t1 t2 : List Event) :
    countBefore (t1 ++ t2) = countBefore t1 + countBefore t2 := by
  simp [countBefore, List.countP_append]

theorem countAfter_append (t1 t2 : List Event) :
    countAfter (t1 ++ t2) = countAfter t1 + countAfter t2 := by
  simp [countAfter, List.countP_append]

/-- Claim C3, counterexample: the claim says each constructor option field
defaults independently, but `constructor(options = {...})` only substitutes
the default object when the whole argument is absent; supplying an options
object with `threshold` but no `rootMargin` leaves `rootMargin` undefined,
not the documented `"0px"`. -/
theorem c3_counterexample :
    (LazyLoader.create
        (some { threshold := some ((1 : Rat)/2), rootMargin := none })).rootMargin
      ≠ some "0px" := by
  decide

/-- Claim C3, amended: the defaults `threshold = 0.1`, `rootMargin = "0px"`
apply only when the options argument is omitted entirely; when an options
object is supplied, both fields are copied from it verbatim (an absent
field stays undefined).  The records map starts empty in every case. -/
theorem c3_constructor_defaults (o : CtorOptions) :
    (LazyLoader.create none).threshold = some ((1 : Rat)/10)
  ∧ (LazyLoader.create none).rootMargin = some "0px"
  ∧ (LazyLoader.create none).observers = []
  ∧ (LazyLoader.create (some o)).threshold = o.threshold
  ∧ (LazyLoader.create (some o)).rootMargin = o.rootMargin
  ∧ (LazyLoader.create (some o)).observers = [] :=
  ⟨rfl, rfl, rfl, rfl, rfl, rfl⟩

/-- Claim C4: when the id is present, the returned stop function runs
exactly the sequence before-hook (with the record still in the map), stop
tracking, map removal, after-hook (with the record already removed); the
trace extension shows the order and the final state shows the removal. -/
theorem c4_manual_stop_order (w : World) (id : Nat) (r : Rec)
    (hk : (w.loader.observers.map Prod.fst).Nodup)
    (h : lookupKey w.loader.observers id = some r) :
    unobserveId w id
      = invokeAfterU r (deleteRec id (obsUnobserve r.observer r.element (invokeBeforeU r w)))
  ∧ lookupKey (invokeBeforeU r w).loader.observers id = some r
  ∧ lookupKey
      (deleteRec id (obsUnobserve r.observer r.element (invokeBeforeU r w))).loader.observers
      id = none
  ∧ (unobserveId w id).loader.observers = eraseKey w.loader.observers id
  ∧ (unobserveId w id).trace
      = w.trace ++ [Event.beforeU r.beforeU r.element r.observer,
                    Event.unobserveEl r.observer r.element,
                    Event.afterU r.afterU r.element r.observer] := by
  refine ⟨?_, ?_, ?_, (unobserveId_present h).1, (unobserveId_present h).2.1⟩
  · simp [unobserveId, h]
  · exact h
  · show lookupKey (eraseKey w.loader.observers id) id = none
    exact lookupKey_eraseKey_self hk

/-- Claim C4, witness at a concrete two-registration world. -/
theorem c4_witness :
    (sampleW2.loader.observers.map Prod.fst).Nodup
  ∧ lookupKey sampleW2.loader.observers 1
      = some { observer := 1, element := 6, beforeU := some 7, afterU := some 8 }
  ∧ (unobserveId sampleW2 1).trace
      = sampleW2.trace ++ [Event.beforeU (some 7) 6 1, Event.unobserveEl 1 6,
                           Event.afterU (some 8) 6 1] :=
  ⟨by decide, by decide,
   (c4_manual_stop_order sampleW2 1
      { observer := 1, element := 6, beforeU := some 7, afterU := some 8 }
      (by decide) (by decide)).2.2.2.2⟩

/-- Claim C5: invoking the stop function for an absent id is a silent
no-op (the state, hence the trace, is unchanged — no hook runs), so a
second invocation after a successful one changes nothing, and across the
two calls the before- and after-hooks each ran exactly once. -/
theorem c5_stop_idempotent (w : World) (id : Nat) :
    (lookupKey w.loader.observers id = none → unobserveId w id = w)
  ∧ ((w.loader.observers.map Prod.fst).Nodup →
       unobserveId (unobserveId w id) id = unobserveId w id)
  ∧ ((w.loader.observers.map Prod.fst).Nodup →
       ∀ r, lookupKey w.loader.observers id = some r →
       countBefore (unobserveId (unobserveId w id) id).trace = countBefore w.trace + 1
     ∧ countAfter (unobserveId (unobserveId w id) id).trace = countAfter w.trace + 1) := by
  have habs : ∀ v : World, lookupKey v.loader.observers id = none → unobserveId v id = v :=
    fun v hv => unobserveId_absent hv
  have hidem : (w.loader.observers.map Prod.fst).Nodup →
      unobserveId (unobserveId w id) id = unobserveId w id := by
    intro hk
    cases hl : lookupKey w.loader.observers id with
    | none => rw [unobserveId_absent hl, unobserveId_absent hl]
    | some r =>
        apply habs
        rw [(unobserveId_present hl).1]
        exact lookupKey_eraseKey_self hk
  refine ⟨fun h => unobserveId_absent h, hidem, ?_⟩
  intro hk r hr
  rw [hidem hk, (unobserveId_present hr).2.1, countBefore_append, countAfter_append]
  constructor
  · simp [countBefore, List.countP_cons]
  · simp [countAfter, List.countP_cons]

/-- Claim C5, witness: an unknown id is a no-op and a second stop call
after a successful one changes nothing. -/
theorem c5_witness :
    lookupKey sampleW2.loader.observers 99 = none
  ∧ unobserveId sampleW2 99 = sampleW2
  ∧ (sampleW2.loader.observers.map Prod.fst).Nodup
  ∧ unobserveId (unobserveId sampleW2 1) 1 = unobserveId sampleW2 1 :=
  ⟨by decide, (c5_stop_idempotent sampleW2 99).1 (by decide), by decide,
   (c5_stop_idempotent sampleW2 1).2.1 (by decide)⟩

/-- Claim C10: delivery of an entry whose intersecting condition is false
leaves the world exactly unchanged — no callback, no hook, no instruction
to the watcher, and an untouched records map. -/
theorem c10_nonintersecting_noop (w : World) (o : Nat) (e : Entry)
    (h : e.isIntersecting = false) : deliver w o e = w := by
  unfold deliver
  cases hl : lookupKey w.handlers o with
  | none => rfl
  | some cbl =>
      by_cases hm : (o, e.target) ∈ w.tracking
      · simp only [hm, if_true]
        simp [handleEntries, handleEntry, h]
      · simp [hm]

/-- Claim C10, witness: a non-intersecting report for a tracked target. -/
theorem c10_witness :
    ({ isIntersecting := false, target := 5 } : Entry).isIntersecting = false
  ∧ deliver sampleW1 0 { isIntersecting := false, target := 5 } = sampleW1 :=
  ⟨rfl, c10_nonintersecting_noop sampleW1 0 { isIntersecting := false, target := 5 } rfl⟩

theorem disconnectRun_loader : ∀ (l : List (Nat × Rec)) (w : World),
    (disconnectRun l w).loader = w.loader
  | [], _ => rfl
  | pr :: rest, w => by
      show (disconnectRun rest (disconnectStep w pr)).loader = w.loader
      rw [disconnectRun_loader rest (disconnectStep w pr)]
      rfl

theorem disconnectStep_trace (w : World) (pr : Nat × Rec) :
    (disconnectStep w pr).trace
      = w.trace ++ [Event.beforeU pr.2.beforeU pr.2.element pr.2.observer,
                    Event.disconnectObs pr.2.observer,
                    Event.afterU pr.2.afterU pr.2.element pr.2.observer] := by
  simp [disconnectStep, invokeAfterU, obsDisconnect, invokeBeforeU]

theorem disconnectRun_trace : ∀ (l : List (Nat × Rec)) (w : World),
    (disconnectRun l w).trace = w.trace ++ disconnectEvents l
  | [], w => by simp [disconnectRun, disconnectEvents]
  | pr :: rest, w => by
      show (disconnectRun rest (disconnectStep w pr)).trace = _
      rw [disconnectRun_trace rest (disconnectStep w pr), disconnectStep_trace,
        disconnectEvents]
      simp

theorem countBefore_disconnectEvents : ∀ l : List (Nat × Rec),
    countBefore (disconnectEvents l) = l.length
  | [] => rfl
  | pr :: rest => by
      have ih := countBefore_disconnectEvents rest
      simp only [disconnectEvents, countBefore, List.countP_cons, List.length_cons] at ih ⊢
      simp [ih]

theorem countAfter_disconnectEvents : ∀ l : List (Nat × Rec),
    countAfter (disconnectEvents l) = l.length
  | [] => rfl
  | pr :: rest => by
      have ih := countAfter_disconnectEvents rest
      simp only [disconnectEvents, countAfter, List.countP_cons, List.length_cons] at ih ⊢
      simp [ih]

theorem countDisc_disconnectEvents : ∀ l : List (Nat × Rec),
    countDisc (disconnectEvents l) = l.length
  | [] => rfl
  | pr :: rest => by
      have ih := countDisc_disconnectEvents rest
      simp only [disconnectEvents, countDisc, List.countP_cons, List.length_cons] at ih ⊢
      simp [ih]

/-- Claim C6: `disconnect()` emits, per record, one before-hook call (with
that record's target and watcher handle), one watcher-disconnect
instruction, and one after-hook call — so with N records each hook runs
exactly N times — and leaves the records map empty; on an empty registry
it changes nothing at all. -/
theorem c6_disconnect_teardown (w : World) :
    (disconnect w).trace = w.trace ++ disconnectEvents w.loader.observers
  ∧ countBefore (disconnectEvents w.loader.observers) = w.loader.observers.length
  ∧ countAfter (disconnectEvents w.loader.observers) = w.loader.observers.length
  ∧ countDisc (disconnectEvents w.loader.observers) = w.loader.observers.length
  ∧ (disconnect w).loader.observers = []
  ∧ (w.loader.observers = [] → disconnect w = w) := by
  refine ⟨?_, countBefore_disconnectEvents _, countAfter_disconnectEvents _,
          countDisc_disconnectEvents _, rfl, ?_⟩
  · show (disconnectRun w.loader.observers w).trace = _
    exact disconnectRun_trace _ _
  · intro h
    cases w with
    | mk l hs tr t f =>
        cases l with
        | mk th rm obs =>
            change obs = [] at h
            subst h
            rfl

/-- Claim C6, witness: `disconnect()` on a freshly constructed registry is
a no-op. -/
theorem c6_witness :
    (initWorld (LazyLoader.create none)).loader.observers = []
  ∧ disconnect (initWorld (LazyLoader.create none)) = initWorld (LazyLoader.create none) :=
  ⟨rfl, (c6_disconnect_teardown (initWorld (LazyLoader.create none))).2.2.2.2.2 rfl⟩

/-- Claim C9: the `forEach` loop of `disconnect()` never touches the
records map — after any number of processed records, and in particular at
the state in which each record's before- and after-hook is invoked, the
map still equals the original one — and the map is cleared only once the
whole loop is done; on the manual stop path, by contrast, the after-hook
runs with the id already deleted. -/
theorem c9_disconnect_hooks_see_records (w : World) :
    (∀ l : List (Nat × Rec), (disconnectRun l w).loader.observers = w.loader.observers)
  ∧ (∀ (pr : Nat × Rec) (l : List (Nat × Rec)),
       (obsDisconnect pr.2.observer (invokeBeforeU pr.2 (disconnectRun l w))).loader.observers
         = w.loader.observers)
  ∧ disconnect w
      = { disconnectRun w.loader.observers w with
          loader := { (disconnectRun w.loader.observers w).loader with observers := [] } }
  ∧ ((w.loader.observers.map Prod.fst).Nodup →
       ∀ id r, lookupKey w.loader.observers id = some r →
         lookupKey
           (deleteRec id (obsUnobserve r.observer r.element (invokeBeforeU r w))).loader.observers
           id = none) := by
  refine ⟨?_, ?_, rfl, ?_⟩
  · intro l
    exact congrArg LazyLoader.observers (disconnectRun_loader l w)
  · intro pr l
    exact congrArg LazyLoader.observers (disconnectRun_loader l w)
  · intro hk id r hr
    show lookupKey (eraseKey w.loader.observers id) id = none
    exact lookupKey_eraseKey_self hk

/-- Claim C9, witness at a concrete two-registration world. -/
theorem c9_witness :
    (disconnectRun sampleW2.loader.observers sampleW2).loader.observers
      = sampleW2.loader.observers
  ∧ (sampleW2.loader.observers.map Prod.fst).Nodup
  ∧ lookupKey
      (deleteRec 0 (obsUnobserve 0 5 (invokeBeforeU
        { observer := 0, element := 5, beforeU := none, afterU := none }
        sampleW2))).loader.observers 0 = none :=
  ⟨(c9_disconnect_hooks_see_records sampleW2).1 _, by decide,
   (c9_disconnect_hooks_see_records sampleW2).2.2.2 (by decide) 0
     { observer := 0, element := 5, beforeU := none, afterU := none } (by decide)⟩

theorem observe_spec (w : World) (cbl el : Nat) (opts : ObserveOptions) :
    (observe w cbl el opts).1.loader.observers
      = w.loader.observers ++
        [(w.fresh, { observer := w.fresh, element := el,
                     beforeU := opts.beforeUnobserve, afterU := opts.afterUnobserve })]
  ∧ (observe w cbl el opts).1.tracking = w.tracking ++ [(w.fresh, el)]
  ∧ (observe w cbl el opts).1.handlers = w.handlers ++ [(w.fresh, cbl)]
  ∧ (observe w cbl el opts).1.trace = w.trace ++ [Event.observeEl w.fresh el]
  ∧ (observe w cbl el opts).1.fresh = w.fresh + 1
  ∧ (observe w cbl el opts).2 = w.fresh :=
  ⟨rfl, rfl, rfl, rfl, rfl, rfl⟩

theorem deliver_fire {w : World} {obsId cbl : Nat} {e : Entry}
    (hh : lookupKey w.handlers obsId = some cbl)
    (ht : (obsId, e.target) ∈ w.tracking)
    (hi : e.isIntersecting = true) :
    deliver w obsId e
      = { w with
          tracking := w.tracking.filter (fun p => decide (p ≠ (obsId, e.target))),
          trace := w.trace ++ [Event.cb obsId cbl e, Event.unobserveEl obsId e.target] } := by
  simp [deliver, hh, ht, handleEntries, handleEntry, hi, obsUnobserve]

/-- Claim C1, counterexample: fire the second registration of `sampleW2`
(registered with both hooks) by an intersecting report.  Contrary to the
claim, its record is still in the map afterwards, and a later call of the
stop function is not a no-op: it invokes the before-hook. -/
theorem c1_counterexample :
    (lookupKey
        (deliver sampleW2 1 { isIntersecting := true, target := 6 }).loader.observers
        1).isSome = true
  ∧ countBefore
        (unobserveId (deliver sampleW2 1 { isIntersecting := true, target := 6 }) 1).trace
      = countBefore (deliver sampleW2 1 { isIntersecting := true, target := 6 }).trace + 1 := by
  exact ⟨by decide, by decide⟩

/-- Claim C1, amended: on a platform-delivered event reporting the target
intersecting, the registry calls the callback exactly once and then
instructs the watcher to stop tracking the target, but it does not remove
the record from the records map; consequently the id remains subject to
subsequent `disconnect()` processing, and a later call of the returned
stop function performs the full manual teardown (both hooks) once rather
than being a no-op. -/
theorem c1_auto_fire_keeps_record (w : World) (id : Nat) (r : Rec) (cbl : Nat)
    (h : lookupKey w.loader.observers id = some r)
    (hh : lookupKey w.handlers r.observer = some cbl)
    (ht : (r.observer, r.element) ∈ w.tracking) :
    (deliver w r.observer { isIntersecting := true, target := r.element }).loader = w.loader
  ∧ (deliver w r.observer { isIntersecting := true, target := r.element }).trace
      = w.trace ++ [Event.cb r.observer cbl { isIntersecting := true, target := r.element },
                    Event.unobserveEl r.observer r.element]
  ∧ lookupKey
      (deliver w r.observer { isIntersecting := true, target := r.element }).loader.observers
      id = some r
  ∧ (deliver w r.observer { isIntersecting := true, target := r.element }).tracking
      = w.tracking.filter (fun p => decide (p ≠ (r.observer, r.element)))
  ∧ (unobserveId (deliver w r.observer { isIntersecting := true, target := r.element }) id).trace
      = (deliver w r.observer { isIntersecting := true, target := r.element }).trace
        ++ [Event.beforeU r.beforeU r.element r.observer,
            Event.unobserveEl r.observer r.element,
            Event.afterU r.afterU r.element r.observer] := by
  have h2 : lookupKey
      (deliver w r.observer { isIntersecting := true, target := r.element }).loader.observers
      id = some r := by
    rw [deliver_fire hh ht rfl]
    exact h
  refine ⟨?_, ?_, h2, ?_, (unobserveId_present h2).2.1⟩
  · rw [deliver_fire hh ht rfl]
  · rw [deliver_fire hh ht rfl]
  · rw [deliver_fire hh ht rfl]

/-- Claim C1, witness for the amended statement. -/
theorem c1_witness :
    lookupKey sampleW2.loader.observers 1
      = some { observer := 1, element := 6, beforeU := some 7, afterU := some 8 }
  ∧ lookupKey sampleW2.handlers 1 = some 2
  ∧ (1, 6) ∈ sampleW2.tracking
  ∧ lookupKey
      (deliver sampleW2 1 { isIntersecting := true, target := 6 }).loader.observers 1
      = some { observer := 1, element := 6, beforeU := some 7, afterU := some 8 } :=
  ⟨by decide, by decide, by decide,
   (c1_auto_fire_keeps_record sampleW2 1
      { observer := 1, element := 6, beforeU := some 7, afterU := some 8 } 2
      (by decide) (by decide) (by decide)).2.2.1⟩

/-- Claim C2, counterexample: the records-have-active-watchers invariant
holds after one `observe`, but delivery of an intersecting event breaks
it — the watcher stops tracking while the record stays in the map. -/
theorem c2_counterexample :
    recordsActive sampleW1 = true
  ∧ recordsActive (deliver sampleW1 0 { isIntersecting := true, target := 5 }) = false := by
  exact ⟨by decide, by decide⟩

/-- Claim C2, amended: every id in the records map corresponding to a
still-tracking watcher is an invariant preserved by `observe`, by the
returned stop function, and by `disconnect()`, but it is not preserved by
delivery of platform visibility events (the auto-fire path invalidates
it). -/
theorem c2_invariant_preservation :
    (∀ (w : World) (cbl el : Nat) (opts : ObserveOptions),
       recordsActive w = true → recordsActive (observe w cbl el opts).1 = true)
  ∧ (∀ (w : World) (id : Nat),
       (w.loader.observers.map Prod.fst).Nodup →
       (w.loader.observers.map (fun p => p.2.observer)).Nodup →
       recordsActive w = true → recordsActive (unobserveId w id) = true)
  ∧ (∀ w : World, recordsActive (disconnect w) = true) := by
  refine ⟨?_, ?_, fun w => rfl⟩
  · intro w cbl el opts h
    simp only [recordsActive, (observe_spec w cbl el opts).1,
      (observe_spec w cbl el opts).2.1, List.all_eq_true, decide_eq_true_eq] at h ⊢
    intro p hp
    rcases List.mem_append.mp hp with hp | hp
    · exact List.mem_append.mpr (Or.inl (h p hp))
    · rw [List.mem_singleton.mp hp]
      exact List.mem_append.mpr (Or.inr (by simp))
  · intro w id hk ho h
    cases hl : lookupKey w.loader.observers id with
    | none => rw [unobserveId_absent hl]; exact h
    | some r =>
        simp only [recordsActive, (unobserveId_present hl).1,
          (unobserveId_present hl).2.2.1, List.all_eq_true, decide_eq_true_eq] at h ⊢
        intro p hp
        have hpl : p ∈ w.loader.observers := mem_of_mem_eraseKey hp
        have hpk : p.1 ≠ id := mem_eraseKey_ne hk hp
        rw [List.mem_filter]
        refine ⟨h p hpl, ?_⟩
        simp only [decide_eq_true_eq]
        intro hcontra
        have hoo : p.2.observer = r.observer := congrArg Prod.fst hcontra
        have hidr : (id, r) ∈ w.loader.observers := lookupKey_mem hl
        have hpr := nodup_map_inj (fun q => q.2.observer) ho p hpl (id, r) hidr hoo
        exact hpk (congrArg Prod.fst hpr)

/-- Claim C2, witness for the preserved directions. -/
theorem c2_witness :
    recordsActive sampleW1 = true
  ∧ recordsActive
      (observe sampleW1 2 6 { beforeUnobserve := some 7, afterUnobserve := some 8 }).1 = true
  ∧ recordsActive (unobserveId sampleW2 0) = true :=
  ⟨by decide,
   c2_invariant_preservation.1 sampleW1 2 6
     { beforeUnobserve := some 7, afterUnobserve := some 8 } (by decide),
   c2_invariant_preservation.2.1 sampleW2 0 (by decide) (by decide) (by decide)⟩

/-- Claim C8: for two registrations with distinct ids, stopping the first
via its stop function, or auto-firing it via an intersecting event, leaves
the second registration's record in the map (and its watcher tracking)
unchanged, and every emitted event belongs to the first registration's
observer, never the second's. -/
theorem c8_independence (w : World) (id1 id2 cb1 : Nat) (r1 r2 : Rec)
    (ho : (w.loader.observers.map (fun p => p.2.observer)).Nodup)
    (h1 : lookupKey w.loader.observers id1 = some r1)
    (h2 : lookupKey w.loader.observers id2 = some r2)
    (hne : id1 ≠ id2)
    (hcb : lookupKey w.handlers r1.observer = some cb1)
    (htr1 : (r1.observer, r1.element) ∈ w.tracking)
    (htr2 : (r2.observer, r2.element) ∈ w.tracking) :
    r1.observer ≠ r2.observer
  ∧ lookupKey (unobserveId w id1).loader.observers id2 = some r2
  ∧ (r2.observer, r2.element) ∈ (unobserveId w id1).tracking
  ∧ (unobserveId w id1).trace
      = w.trace ++ [Event.beforeU r1.beforeU r1.element r1.observer,
                    Event.unobserveEl r1.observer r1.element,
                    Event.afterU r1.afterU r1.element r1.observer]
  ∧ (∀ ev ∈ [Event.beforeU r1.beforeU r1.element r1.observer,
             Event.unobserveEl r1.observer r1.element,
             Event.afterU r1.afterU r1.element r1.observer],
       evObs ev ≠ r2.observer)
  ∧ lookupKey
      (deliver w r1.observer { isIntersecting := true, target := r1.element }).loader.observers
      id2 = some r2
  ∧ (r2.observer, r2.element)
      ∈ (deliver w r1.observer { isIntersecting := true, target := r1.element }).tracking
  ∧ (deliver w r1.observer { isIntersecting := true, target := r1.element }).trace
      = w.trace ++ [Event.cb r1.observer cb1 { isIntersecting := true, target := r1.element },
                    Event.unobserveEl r1.observer r1.element]
  ∧ (∀ ev ∈ [Event.cb r1.observer cb1 { isIntersecting := true, target := r1.element },
             Event.unobserveEl r1.observer r1.element],
       evObs ev ≠ r2.observer) := by
  have hobsne : r1.observer ≠ r2.observer := by
    intro hcontra
    have hm1 : (id1, r1) ∈ w.loader.observers := lookupKey_mem h1
    have hm2 : (id2, r2) ∈ w.loader.observers := lookupKey_mem h2
    have := nodup_map_inj (fun q => q.2.observer) ho (id1, r1) hm1 (id2, r2) hm2 hcontra
    exact hne (congrArg Prod.fst this)
  have hpairne : (r2.observer, r2.element) ≠ (r1.observer, r1.element) := by
    intro hc
    exact hobsne (congrArg Prod.fst hc).symm
  refine ⟨hobsne, ?_, ?_, (unobserveId_present h1).2.1, ?_, ?_, ?_, ?_, ?_⟩
  · rw [(unobserveId_present h1).1]
    rw [lookupKey_eraseKey_other w.loader.observers id1 id2 (Ne.symm hne)]
    exact h2
  · rw [(unobserveId_present h1).2.2.1]
    rw [List.mem_filter]
    exact ⟨htr2, by simp only [decide_eq_true_eq]; exact hpairne⟩
  · intro ev hev
    simp only [List.mem_cons, List.not_mem_nil, or_false] at hev
    rcases hev with rfl | rfl | rfl <;> exact hobsne
  · rw [deliver_fire hcb htr1 rfl]
    exact h2
  · rw [deliver_fire hcb htr1 rfl]
    show (r2.observer, r2.element) ∈ w.tracking.filter _
    rw [List.mem_filter]
    exact ⟨htr2, by simp only [decide_eq_true_eq]; exact hpairne⟩
  · rw [deliver_fire hcb htr1 rfl]
  · intro ev hev
    simp only [List.mem_cons, List.not_mem_nil, or_false] at hev
    rcases hev with rfl | rfl <;> exact hobsne

/-- Claim C8, witness on the concrete two-registration world. -/
theorem c8_witness :
    lookupKey sampleW2.loader.observers 0
      = some { observer := 0, element := 5, beforeU := none, afterU := none }
  ∧ lookupKey sampleW2.loader.observers 1
      = some { observer := 1, element := 6, beforeU := some 7, afterU := some 8 }
  ∧ lookupKey (unobserveId sampleW2 0).loader.observers 1
      = some { observer := 1, element := 6, beforeU := some 7, afterU := some 8 } :=
  ⟨by decide, by decide,
   (c8_independence sampleW2 0 1 1
      { observer := 0, element := 5, beforeU := none, afterU := none }
      { observer := 1, element := 6, beforeU := some 7, afterU := some 8 }
      (by decide) (by decide) (by decide) (by decide) (by decide) (by decide)
      (by decide)).2.1⟩

theorem deliver_effect (w : World) (o : Nat) (e : Entry) :
    deliver w o e = w
  ∨ ((o, e.target) ∈ w.tracking ∧ e.isIntersecting = true
      ∧ ∃ cbl, lookupKey w.handlers o = some cbl
        ∧ deliver w o e
            = { w with
                tracking := w.tracking.filter (fun p => decide (p ≠ (o, e.target))),
                trace := w.trace ++ [Event.cb o cbl e, Event.unobserveEl o e.target] }) := by
  cases hl : lookupKey w.handlers o with
  | none => exact Or.inl (by simp [deliver, hl])
  | some cbl =>
      by_cases hm : (o, e.target) ∈ w.tracking
      · cases hi : e.isIntersecting with
        | false => exact Or.inl (by simp [deliver, hl, hm, handleEntries, handleEntry, hi])
        | true => exact Or.inr ⟨hm, rfl, cbl, rfl, deliver_fire hl hm hi⟩
      · exact Or.inl (by simp [deliver, hl, hm])

theorem deliverList_count_gone (obsId : Nat) :
    ∀ (items : List (Nat × Entry)) (w : World),
      (∀ x, (obsId, x) ∉ w.tracking) →
      countCb obsId (deliverList w items).trace = countCb obsId w.trace
  | [], _, _ => rfl
  | it :: rest, w, hgone => by
      show countCb obsId (deliverList (deliver w it.1 it.2) rest).trace = _
      rcases deliver_effect w it.1 it.2 with heq | ⟨hm, hi, cbl, hl, heq⟩
      · rw [heq]
        exact deliverList_count_gone obsId rest w hgone
      · by_cases hoeq : it.1 = obsId
        · exact absurd (hoeq ▸ hm) (hgone it.2.target)
        · rw [heq, deliverList_count_gone obsId rest
              { w with
                tracking := w.tracking.filter (fun p => decide (p ≠ (it.1, it.2.target))),
                trace := w.trace ++ [Event.cb it.1 cbl it.2,
                                     Event.unobserveEl it.1 it.2.target] }
              (fun x hx => hgone x (List.mem_filter.mp hx).1)]
          simp [countCb, List.countP_append, List.countP_cons, hoeq]

theorem deliverList_count_live (obsId el cbl : Nat) :
    ∀ (items : List (Nat × Entry)) (w : World),
      lookupKey w.handlers obsId = some cbl →
      (obsId, el) ∈ w.tracking →
      (∀ x, (obsId, x) ∈ w.tracking → x = el) →
      countCb obsId (deliverList w items).trace
        = countCb obsId w.trace
          + (if (items.any (qualifies obsId el)) = true then 1 else 0)
  | [], w, _, _, _ => by simp [deliverList]
  | it :: rest, w, hh, hm, huniq => by
      show countCb obsId (deliverList (deliver w it.1 it.2) rest).trace = _
      by_cases hq : qualifies obsId el it = true
      · have hall : it.1 = obsId ∧ it.2.isIntersecting = true ∧ it.2.target = el := by
          have := hq
          simp only [qualifies, Bool.and_eq_true, decide_eq_true_eq] at this
          exact ⟨this.1.1, this.1.2, this.2⟩
        have hfire := @deliver_fire w obsId cbl it.2
          hh (by rw [hall.2.2]; exact hm) hall.2.1
        have hgone : ∀ x, (obsId, x)
            ∉ w.tracking.filter (fun p => decide (p ≠ (obsId, it.2.target))) := by
          intro x hx
          have hx' := List.mem_filter.mp hx
          have hxel : x = el := huniq x hx'.1
          exact (of_decide_eq_true hx'.2) (by rw [hxel, hall.2.2])
        rw [hall.1, hfire, deliverList_count_gone obsId rest
              { w with
                tracking := w.tracking.filter (fun p => decide (p ≠ (obsId, it.2.target))),
                trace := w.trace ++ [Event.cb obsId cbl it.2,
                                     Event.unobserveEl obsId it.2.target] }
              hgone]
        have hany : ((it :: rest).any (qualifies obsId el)) = true := by
          simp [List.any_cons, hq]
        rw [hany]
        simp [countCb, List.countP_append, List.countP_cons]
      · have hqf : qualifies obsId el it = false := by
          revert hq
          cases qualifies obsId el it <;> simp
        rcases deliver_effect w it.1 it.2 with heq | ⟨hm', hi', cbl', hl', heq⟩
        · rw [heq, deliverList_count_live obsId el cbl rest w hh hm huniq]
          simp only [List.any_cons, hqf, Bool.false_or]
        · have hone : it.1 ≠ obsId := by
            intro hcontra
            have htg : it.2.target = el := huniq it.2.target (hcontra ▸ hm')
            apply hq
            simp [qualifies, hcontra, hi', htg]
          rw [heq, deliverList_count_live obsId el cbl rest
                { w with
                  tracking := w.tracking.filter (fun p => decide (p ≠ (it.1, it.2.target))),
                  trace := w.trace ++ [Event.cb it.1 cbl' it.2,
                                       Event.unobserveEl it.1 it.2.target] }
                hh
                (List.mem_filter.mpr ⟨hm, by
                  simp only [decide_eq_true_eq]
                  intro hc
                  exact hone (congrArg Prod.fst hc).symm⟩)
                (fun x hx => huniq x (List.mem_filter.mp hx).1)]
          simp only [List.any_cons, hqf, Bool.false_or]
          simp [countCb, List.countP_append, List.countP_cons, hone]

/-- Claim C7: for one `observe` call and any sequence of platform
deliveries, the number of invocations of the registered callback grows by
exactly one if some delivered item reports the new target intersecting for
the new observer, and by zero otherwise — hence by at most one: the
auto-fire path stops tracking synchronously, so no later delivery can
reach the handler again. -/
theorem c7_callback_once (w : World) (cbl el : Nat) (opts : ObserveOptions)
    (items : List (Nat × Entry))
    (hh : ∀ q ∈ w.handlers, q.1 < w.fresh)
    (ht : ∀ q ∈ w.tracking, q.1 < w.fresh) :
    countCb w.fresh (deliverList (observe w cbl el opts).1 items).trace
      = countCb w.fresh w.trace
        + (if (items.any (qualifies w.fresh el)) = true then 1 else 0)
  ∧ countCb w.fresh (deliverList (observe w cbl el opts).1 items).trace
      ≤ countCb w.fresh w.trace + 1 := by
  have hlook : lookupKey (observe w cbl el opts).1.handlers w.fresh = some cbl := by
    rw [(observe_spec w cbl el opts).2.2.1]
    exact lookupKey_append_right w.handlers w.fresh cbl
      (fun q hq => Nat.ne_of_lt (hh q hq))
  have hmem : (w.fresh, el) ∈ (observe w cbl el opts).1.tracking := by
    rw [(observe_spec w cbl el opts).2.1]
    exact List.mem_append.mpr (Or.inr (List.mem_singleton.mpr rfl))
  have huniq : ∀ x, (w.fresh, x) ∈ (observe w cbl el opts).1.tracking → x = el := by
    intro x hx
    rw [(observe_spec w cbl el opts).2.1] at hx
    rcases List.mem_append.mp hx with hx | hx
    · exact absurd (ht _ hx) (lt_irrefl w.fresh)
    · exact congrArg Prod.snd (List.mem_singleton.mp hx)
  have hcount0 : countCb w.fresh (observe w cbl el opts).1.trace
      = countCb w.fresh w.trace := by
    rw [(observe_spec w cbl el opts).2.2.2.1]
    simp [countCb, List.countP_append, List.countP_cons]
  have hmain := deliverList_count_live w.fresh el cbl items (observe w cbl el opts).1
    hlook hmem huniq
  rw [hcount0] at hmain
  refine ⟨hmain, ?_⟩
  rw [hmain]
  split <;> omega

/-- Claim C7, witness: two intersecting reports are listed but the
callback count stays within one. -/
theorem c7_witness :
    (∀ q ∈ (initWorld (LazyLoader.create none)).handlers,
        q.1 < (initWorld (LazyLoader.create none)).fresh)
  ∧ countCb (initWorld (LazyLoader.create none)).fresh
      (deliverList
        (observe (initWorld (LazyLoader.create none)) 1 5
          { beforeUnobserve := none, afterUnobserve := none }).1
        [(0, { isIntersecting := true, target := 5 }),
         (0, { isIntersecting := true, target := 5 })]).trace
      ≤ countCb (initWorld (LazyLoader.create none)).fresh
          (initWorld (LazyLoader.create none)).trace + 1 :=
  ⟨by decide,
   (c7_callback_once (initWorld (LazyLoader.create none)) 1 5
      { beforeUnobserve := none, afterUnobserve := none }
      [(0, { isIntersecting := true, target := 5 }),
       (0, { isIntersecting := true, target := 5 })]
      (by decide) (by decide)).2⟩
